import Mathlib

/-!
Shallow embedding of `security_monkey/watcher.py` (repository
hybridious/security_monkey): the `Watcher` diff engine (`find_deleted`,
`find_new`, `find_modified`, `find_changes`), the exception-suppression
lookup (`locationInExceptionMap`), the rate-limit backoff wrapper
(`wrap_aws_rate_limited_call`), issue aggregation (`issues_found`),
change reporting (`is_changed`), persistence selection (`save`) and the
`ChangeItem` entity (`from_items`, `config`, `location`).

Python dicts keyed by location tuples are embedded as lists with
first-occurrence key order (`dictKeys`) and last-write-wins lookup
(`dictLookup`), matching CPython dict semantics for the comprehensions
`{item.location(): item for item in ...}` used by the source.  Logging
calls are side effects with no data flow and are dropped.
-/

/-- Nested string-keyed configuration structure (the `config` attribute of
items): an arbitrary nested key/value dictionary with scalar leaves.  A
dictionary is represented as its sequence of key/value entries (`nil` /
`cons key value rest`), so the type is an ordinary (non-nested) inductive. -/
inductive Config where
  | leaf (s : String)
  | nil
  | cons (key : String) (val : Config) (rest : Config)
deriving DecidableEq

def emptyConfig : Config := Config.nil

/-- Modelled from the spec: `common.utils.sub_dict` is imported by
`watcher.py` but its definition is not under `src/`.  The spec describes it
as a canonicalization that "strips fields that are never semantically
meaningful to compare" — "a configurable projection, not a fixed field
list".  We model it as dropping a configurable set of top-level keys; all
theorems quantify over that `excluded` policy parameter. -/
def sub_dict (excluded : List String) : Config → Config
  | Config.leaf s => Config.leaf s
  | Config.nil => Config.nil
  | Config.cons k v rest =>
      if excluded.contains k then sub_dict excluded rest
      else Config.cons k v (sub_dict excluded rest)

/-- Model of `dpath.util.delete(cfg, path, separator=chr(36))` for the
glob-free path lists the watcher feeds it (the source splits a path string
on the separator; we receive the segments already split).  Deleting a
missing path is a no-op: the source catches `PathNotFound` and passes. -/
def dpath_delete : Config → List String → Config
  | Config.leaf s, _ => Config.leaf s
  | Config.nil, _ => Config.nil
  | c, [] => c
  | Config.cons key v rest, [k] =>
      if key = k then dpath_delete rest [k]
      else Config.cons key v (dpath_delete rest [k])
  | Config.cons key v rest, k :: k2 :: p =>
      Config.cons key (if key = k then dpath_delete v (k2 :: p) else v)
        (dpath_delete rest (k :: k2 :: p))

/-- A resource item as consumed by the diff engine: anything with the
location fields, a `config` and `audit_issues` (current items come from a
technology-specific slurp, previous items are rebuilt `ChangeItem`s; the
watcher only uses this common interface). -/
structure Item where
  index : String
  account : String
  region : String
  name : String
  config : Config
  audit_issues : List String
deriving DecidableEq

/-- Source `item.location()`: the `(index, account, region, name)` tuple, embedded
as a list so that the partial locations `location[0:3]` etc. of
`locationInExceptionMap` live in the same type. -/
def Item.location (it : Item) : List String :=
  [it.index, it.account, it.region, it.name]

/-- An audit issue as read by `issues_found` (only `justified` is used). -/
structure Issue where
  justified : Bool
deriving DecidableEq

/-- Source `ChangeItem.__init__`: tracks two revisions of one item plus the
issue-reconciliation fields later filled by the external auditor. -/
structure ChangeItem where
  index : String
  region : String
  account : String
  name : String
  old_config : Config
  new_config : Config
  active : Bool
  audit_issues : List String
  confirmed_new_issues : List Issue
  confirmed_fixed_issues : List Issue
  confirmed_existing_issues : List Issue
  found_new_issue : Bool
deriving DecidableEq

/-- The `config` property: an alias for `new_config`. -/
def ChangeItem.config (c : ChangeItem) : Config := c.new_config

/-- Source `ChangeItem.location()`. -/
def ChangeItem.location (c : ChangeItem) : List String :=
  [c.index, c.account, c.region, c.name]

/-- Source `ChangeItem.from_items(old_item, new_item)`: `None` (here `none`) when
both items are absent — the source `return`s with no value and raises
nothing; otherwise the record built from `valid_item = new_item if
new_item else old_item`. -/
def ChangeItem.from_items (old_item new_item : Option Item) : Option ChangeItem :=
  match old_item, new_item with
  | none, none => none
  | o, some n =>
      some { index := n.index, region := n.region, account := n.account, name := n.name,
             old_config := match o with | some oi => oi.config | none => emptyConfig,
             new_config := n.config,
             active := true,
             audit_issues := n.audit_issues,
             confirmed_new_issues := [], confirmed_fixed_issues := [],
             confirmed_existing_issues := [], found_new_issue := false }
  | some oi, none =>
      some { index := oi.index, region := oi.region, account := oi.account, name := oi.name,
             old_config := oi.config, new_config := emptyConfig,
             active := false,
             audit_issues := oi.audit_issues,
             confirmed_new_issues := [], confirmed_fixed_issues := [],
             confirmed_existing_issues := [], found_new_issue := false }

/-- Key sequence of a Python dict built by one comprehension pass: first
occurrence wins the position, duplicates collapse. -/
def dictKeys : List (List String) → List (List String)
  | [] => []
  | x :: xs => x :: (dictKeys xs).filter (fun y => !(y == x))

/-- Lookup in the dict `{item.location(): item for item in items}`:
last write wins. -/
def dictLookup (items : List Item) (loc : List String) : Option Item :=
  items.reverse.find? (fun it => it.location == loc)

/-- The key list of `{item.location(): item for item in items}`. -/
def locations_of (items : List Item) : List (List String) :=
  dictKeys (items.map Item.location)

/-- Mutable state the claims touch: the four buckets, the backoff delay
and the ephemeral configuration (all set up by `Watcher.__init__`). -/
structure Watcher where
  created_items : List ChangeItem
  deleted_items : List ChangeItem
  changed_items : List ChangeItem
  ephemeral_items : List ChangeItem
  rate_limit_delay : Nat
  honor_ephemerals : Bool
  ephemeral_paths : List (List String)
deriving DecidableEq

/-- Source `Watcher.__init__`: empty buckets, zero delay, ephemerals off. -/
def Watcher.init : Watcher :=
  { created_items := [], deleted_items := [], changed_items := [],
    ephemeral_items := [], rate_limit_delay := 0,
    honor_ephemerals := false, ephemeral_paths := [] }

/-- Source `Watcher.ephemerals_skipped`. -/
def Watcher.ephemerals_skipped (w : Watcher) : Bool := w.honor_ephemerals

/-- Source `Watcher.locationInExceptionMap`: exact match, then the 3-, 2- and
1-element truncations.  Only key membership matters (values are logged),
so the exception map is embedded as its key list. -/
def locationInExceptionMap (item_location : List String)
    (exception_map : List (List String)) : Bool :=
  exception_map.contains item_location ||
    exception_map.contains (item_location.take 3) ||
    exception_map.contains (item_location.take 2) ||
    exception_map.contains (item_location.take 1)

/-- Source `Watcher.find_deleted`: locations of `previous` minus those of
`current`, minus suppressed locations; each surviving previous item is
appended to `deleted_items` as `ChangeItem.from_items(old_item=item,
new_item=None)`. -/
def Watcher.find_deleted (w : Watcher) (previous current : List Item)
    (exception_map : List (List String)) : Watcher :=
  let item_locations :=
    (locations_of previous).filter (fun l => !((locations_of current).contains l))
  let item_locations2 :=
    item_locations.filter (fun l => !(locationInExceptionMap l exception_map))
  let list_deleted_items := item_locations2.filterMap (fun l => dictLookup previous l)
  { w with deleted_items := w.deleted_items ++
      list_deleted_items.filterMap (fun it => ChangeItem.from_items (some it) none) }

/-- Source `Watcher.find_new`: locations of `current` minus those of `previous`
(no exception filtering); each new item is appended to `created_items` as
`ChangeItem.from_items(old_item=None, new_item=item)`. -/
def Watcher.find_new (w : Watcher) (previous current : List Item) : Watcher :=
  let item_locations :=
    (locations_of current).filter (fun l => !((locations_of previous).contains l))
  let list_new_items := item_locations.filterMap (fun l => dictLookup current l)
  { w with created_items := w.created_items ++
      list_new_items.filterMap (fun it => ChangeItem.from_items none (some it)) }

/-- The "ephemeral-inclusive" record of one `find_modified` iteration:
`None` unless the canonicalized configs differ. -/
def eph_record (ex : List String) (prev_item curr_item : Item) : Option ChangeItem :=
  if sub_dict ex prev_item.config = sub_dict ex curr_item.config then none
  else ChangeItem.from_items (some prev_item) (some curr_item)

/-- The per-config part of the ephemeral filtering loop `for path in
self.ephemeral_paths: dpath.util.delete(cfg, path, separator=chr(36))`.
The source stores each path as a separator-joined string and dpath splits
it; here each path is received already split into its segments. -/
def filter_ephemerals (paths : List (List String)) (c : Config) : Config :=
  paths.foldl (fun cfg path => dpath_delete cfg path) c

/-- The "durable" record of one `find_modified` iteration under
`honor_ephemerals`: deep copies with the ephemeral paths deleted,
compared after canonicalization. -/
def dur_record (ex : List String) (paths : List (List String))
    (prev_item curr_item : Item) : Option ChangeItem :=
  if sub_dict ex (filter_ephemerals paths prev_item.config) =
      sub_dict ex (filter_ephemerals paths curr_item.config) then none
  else ChangeItem.from_items
    (some { prev_item with config := filter_ephemerals paths prev_item.config })
    (some { curr_item with config := filter_ephemerals paths curr_item.config })

/-- Body of the `for location in item_locations` loop of
`Watcher.find_modified`. -/
def Watcher.find_modified_step (ex : List String) (w : Watcher)
    (previous current : List Item) (location : List String) : Watcher :=
  match dictLookup previous location, dictLookup current location with
  | some prev_item, some curr_item =>
      let eph_change_item := eph_record ex prev_item curr_item
      if w.ephemerals_skipped then
        let dur_change_item := dur_record ex w.ephemeral_paths prev_item curr_item
        let w1 := match eph_change_item with
          | some c => { w with ephemeral_items := w.ephemeral_items ++ [c] }
          | none => w
        match dur_change_item with
        | some c => { w1 with changed_items := w1.changed_items ++ [c] }
        | none => w1
      else
        match eph_change_item with
        | some c => { w with changed_items := w.changed_items ++ [c] }
        | none => w
  | _, _ => w

/-- The `for location in item_locations` loop of `Watcher.find_modified`
(the fallthrough of `find_modified_step` never fires: every processed
location is a key of both dicts). -/
def Watcher.find_modified_loop (ex : List String) (w : Watcher)
    (previous current : List Item) : List (List String) → Watcher
  | [] => w
  | location :: rest =>
      Watcher.find_modified_loop ex
        (Watcher.find_modified_step ex w previous current location)
        previous current rest

/-- Source `Watcher.find_modified`: the intersection of the two location sets,
minus suppressed locations, processed by the loop. -/
def Watcher.find_modified (ex : List String) (w : Watcher)
    (previous current : List Item) (exception_map : List (List String)) : Watcher :=
  let item_locations :=
    (locations_of current).filter (fun l => (locations_of previous).contains l)
  let item_locations2 :=
    item_locations.filter (fun l => !(locationInExceptionMap l exception_map))
  Watcher.find_modified_loop ex w previous current item_locations2

/-- Source `Watcher.find_changes`: `prev` stands for the return value of
`read_previous_items()` (a Datastore read, external to this core); then
the three passes run in source order. -/
def Watcher.find_changes (ex : List String) (w : Watcher)
    (prev current : List Item) (exception_map : List (List String)) : Watcher :=
  Watcher.find_modified ex
    (Watcher.find_new (Watcher.find_deleted w prev current exception_map) prev current)
    prev current exception_map

/-- Python `a or b` on two lists: the first if it is truthy (nonempty),
else the second. -/
def pyOr (a b : List ChangeItem) : List ChangeItem :=
  if a.isEmpty then b else a

/-- Source `Watcher.is_changed`: `self.deleted_items or self.created_items or
self.changed_items` — the Python value, whose truthiness is nonemptiness. -/
def Watcher.is_changed (w : Watcher) : List ChangeItem :=
  pyOr w.deleted_items (pyOr w.created_items w.changed_items)

/-- The `for item in self.created_items + self.changed_items` loop of
`Watcher.issues_found`, carrying the three flags.  The inner
`for issue ... break` only exits the inner loop, i.e. it computes
"some confirmed existing issue is unjustified". -/
def issues_found_loop : List ChangeItem → Bool → Bool → Bool → Bool × Bool × Bool
  | [], has_issues, has_new_issue, has_unjustified_issue =>
      (has_issues, has_new_issue, has_unjustified_issue)
  | item :: rest, has_issues, has_new_issue, has_unjustified_issue =>
      if !item.audit_issues.isEmpty then
        if item.found_new_issue then (true, true, true)
        else
          issues_found_loop rest true has_new_issue
            (has_unjustified_issue ||
              item.confirmed_existing_issues.any (fun issue => !issue.justified))
      else issues_found_loop rest has_issues has_new_issue has_unjustified_issue

/-- Source `Watcher.issues_found`: returns
`(has_issues, has_new_issue, has_unjustified_issue)`. -/
def Watcher.issues_found (w : Watcher) : Bool × Bool × Bool :=
  issues_found_loop (w.created_items ++ w.changed_items) false false false

/-- Source `Watcher.save`: the sequence of records handed to `Datastore.store`,
in call order — created and deleted always, then `ephemeral_items` when
`ephemerals_skipped()` and `changed_items` otherwise. -/
def Watcher.save (w : Watcher) : List ChangeItem :=
  (w.created_items ++ w.deleted_items) ++
    (if w.ephemerals_skipped then w.ephemeral_items else w.changed_items)

/-- One attempt's outcome of the wrapped AWS call: success, a
`Throttling`-coded `BotoServerError`/`ClientError`, or any other error. -/
inductive AwsOutcome where
  | success
  | throttling
  | otherError
deriving DecidableEq

/-- How a finite run of `wrap_aws_rate_limited_call` ended: the call
returned, an error propagated, or the outcome script ran out while the
loop was still retrying. -/
inductive CallResult where
  | returned
  | raised
  | stillRetrying
deriving DecidableEq

/-- The nested `increase_delay` of `wrap_aws_rate_limited_call`:
`0 -> 1`, double while `< 4`, else hold. -/
def increase_delay (d : Nat) : Nat :=
  if d = 0 then 1 else if d < 4 then d * 2 else d

/-- Source `Watcher.wrap_aws_rate_limited_call`, run against a script of attempt
outcomes from delay state `d` (`self.rate_limit_delay`).  Yields the wait
performed before each attempt (the `time.sleep(self.rate_limit_delay)`
guarded by `> 0`, so a wait of `0` means no sleep), how the run ended, and
the final delay state: success resets the delay to `0` and returns, a
throttling error increases the delay and retries, any other error
propagates with the delay untouched. -/
def wrap_aws_rate_limited_call (d : Nat) :
    List AwsOutcome → List Nat × CallResult × Nat
  | [] => ([], CallResult.stillRetrying, d)
  | AwsOutcome.success :: _ => ([d], CallResult.returned, 0)
  | AwsOutcome.otherError :: _ => ([d], CallResult.raised, d)
  | AwsOutcome.throttling :: rest =>
      let r := wrap_aws_rate_limited_call (increase_delay d) rest
      (d :: r.1, r.2.1, r.2.2)

/-- The delay sequence the spec claims: `0, 1, 2, 4, 4, 4, ...`. -/
def backoff_seq : Nat → Nat
  | 0 => 0
  | 1 => 1
  | 2 => 2
  | _ => 4

/-- Variant of `issues_found` with the two `break`s removed: the straight full-list
scan that claim C8 compares against (this second definition follows the
spec's words; `Watcher.issues_found` above follows the source). -/
def issues_found_full_loop : List ChangeItem → Bool → Bool → Bool → Bool × Bool × Bool
  | [], has_issues, has_new_issue, has_unjustified_issue =>
      (has_issues, has_new_issue, has_unjustified_issue)
  | item :: rest, has_issues, has_new_issue, has_unjustified_issue =>
      if !item.audit_issues.isEmpty then
        issues_found_full_loop rest true (has_new_issue || item.found_new_issue)
          ((has_unjustified_issue || item.found_new_issue) ||
            item.confirmed_existing_issues.any (fun issue => !issue.justified))
      else issues_found_full_loop rest has_issues has_new_issue has_unjustified_issue

/-- The non-short-circuiting variant of `Watcher.issues_found`. -/
def Watcher.issues_found_full (w : Watcher) : Bool × Bool × Bool :=
  issues_found_full_loop (w.created_items ++ w.changed_items) false false false

/-! ### Helper lemmas about the dict embedding -/

lemma mem_dictKeys {y : List String} :
    ∀ {l : List (List String)}, y ∈ dictKeys l ↔ y ∈ l := by
  intro l
  induction l with
  | nil => simp [dictKeys]
  | cons x xs ih =>
      by_cases hyx : y = x
      · subst hyx; simp [dictKeys]
      · simp [dictKeys, List.mem_filter, hyx, ih]

lemma dictKeys_nodup : ∀ (l : List (List String)), (dictKeys l).Nodup := by
  intro l
  induction l with
  | nil => simp [dictKeys]
  | cons x xs ih =>
      refine List.Nodup.cons ?_ (ih.filter _)
      intro hx
      have := (List.mem_filter.mp hx).2
      simp at this

lemma dictKeys_eq_self {l : List (List String)} (h : l.Nodup) : dictKeys l = l := by
  induction l with
  | nil => rfl
  | cons x xs ih =>
      rw [dictKeys, ih h.of_cons]
      have hx : x ∉ xs := (List.nodup_cons.mp h).1
      rw [List.filter_eq_self.mpr]
      intro y hy
      have : y ≠ x := fun hc => hx (hc ▸ hy)
      simp [this]

lemma find?_location_nodup :
    ∀ (l : List Item) (it : Item), (l.map Item.location).Nodup → it ∈ l →
      l.find? (fun x => x.location == it.location) = some it := by
  intro l
  induction l with
  | nil => intro it _ h; simp at h
  | cons hd tl ih =>
      intro it hnd hmem
      rw [List.map_cons] at hnd
      obtain ⟨hnd1, hnd2⟩ := List.nodup_cons.mp hnd
      by_cases hhd : hd = it
      · subst hhd; simp [List.find?_cons]
      · have htl : it ∈ tl := by
          rcases List.mem_cons.mp hmem with h | h
          · exact absurd h.symm hhd
          · exact h
        have hne : hd.location ≠ it.location := by
          intro hc
          exact hnd1 (hc ▸ List.mem_map_of_mem Item.location htl)
        rw [List.find?_cons]
        have : (hd.location == it.location) = false := by simp [hne]
        rw [this]
        exact ih it hnd2 htl

lemma dictLookup_mem_location {items : List Item} {loc : List String} {it : Item}
    (h : dictLookup items loc = some it) : it ∈ items ∧ it.location = loc := by
  unfold dictLookup at h
  constructor
  · have := List.mem_of_find?_eq_some h
    simpa using this
  · have := List.find?_some h
    simpa using this

lemma dictLookup_isSome {items : List Item} {loc : List String}
    (h : loc ∈ items.map Item.location) : ∃ it, dictLookup items loc = some it := by
  unfold dictLookup
  rw [← Option.isSome_iff_exists]
  rw [List.find?_isSome]
  obtain ⟨it, hmem, hloc⟩ := List.mem_map.mp h
  exact ⟨it, by simpa using hmem, by simp [hloc]⟩

lemma dictLookup_self {items : List Item} {it : Item}
    (hn : (items.map Item.location).Nodup) (hm : it ∈ items) :
    dictLookup items it.location = some it := by
  unfold dictLookup
  exact find?_location_nodup items.reverse it
    (by rw [List.map_reverse]; exact List.nodup_reverse.mpr hn) (by simpa using hm)

lemma filterMap_eq_self {α : Type} {l : List α} {f : α → Option α}
    (h : ∀ x ∈ l, f x = some x) : l.filterMap f = l := by
  induction l with
  | nil => rfl
  | cons x xs ih =>
      rw [List.filterMap_cons, h x (by simp)]
      exact congrArg (x :: ·) (ih (fun y hy => h y (by simp [hy])))

/-! ### Helper lemmas about `ChangeItem.from_items` -/

lemma from_items_new_some (o : Option Item) (n : Item) :
    ∃ ch, ChangeItem.from_items o (some n) = some ch ∧
      ch.location = n.location ∧ ch.active = true := by
  cases o <;> exact ⟨_, rfl, rfl, rfl⟩

lemma from_items_old_some (o : Item) :
    ∃ ch, ChangeItem.from_items (some o) none = some ch ∧
      ch.location = o.location ∧ ch.active = false :=
  ⟨_, rfl, rfl, rfl⟩

lemma from_items_location {o n : Option Item} {vn : Item} {ch : ChangeItem}
    (hn : n = some vn) (h : ChangeItem.from_items o n = some ch) :
    ch.location = vn.location := by
  subst hn
  obtain ⟨ch2, heq, hloc, _⟩ := from_items_new_some o vn
  rw [heq] at h
  exact (Option.some_injective _ h) ▸ hloc

lemma from_items_old_location {o : Item} {ch : ChangeItem}
    (h : ChangeItem.from_items (some o) none = some ch) :
    ch.location = o.location := by
  obtain ⟨ch2, heq, hloc, _⟩ := from_items_old_some o
  rw [heq] at h
  exact (Option.some_injective _ h) ▸ hloc

/-! ### Characterizations of the three diff passes -/

/-- The records `find_deleted` appends, as a function of its inputs. -/
def deleted_changes (previous current : List Item)
    (exception_map : List (List String)) : List ChangeItem :=
  ((((locations_of previous).filter
        (fun l => !((locations_of current).contains l))).filter
      (fun l => !(locationInExceptionMap l exception_map))).filterMap
    (fun l => dictLookup previous l)).filterMap
    (fun it => ChangeItem.from_items (some it) none)

/-- The records `find_new` appends, as a function of its inputs. -/
def created_changes (previous current : List Item) : List ChangeItem :=
  (((locations_of current).filter
      (fun l => !((locations_of previous).contains l))).filterMap
    (fun l => dictLookup current l)).filterMap
    (fun it => ChangeItem.from_items none (some it))

lemma find_deleted_eq (w : Watcher) (previous current : List Item)
    (em : List (List String)) :
    Watcher.find_deleted w previous current em =
      { w with deleted_items := w.deleted_items ++ deleted_changes previous current em } :=
  rfl

lemma find_new_eq (w : Watcher) (previous current : List Item) :
    Watcher.find_new w previous current =
      { w with created_items := w.created_items ++ created_changes previous current } :=
  rfl

/-- The record one `find_modified` iteration adds to `ephemeral_items`. -/
def loop_eph (ex : List String) (honor : Bool) (previous current : List Item)
    (loc : List String) : Option ChangeItem :=
  if honor then
    match dictLookup previous loc, dictLookup current loc with
    | some p, some c => eph_record ex p c
    | _, _ => none
  else none

/-- The record one `find_modified` iteration adds to `changed_items`. -/
def loop_chg (ex : List String) (paths : List (List String)) (honor : Bool)
    (previous current : List Item) (loc : List String) : Option ChangeItem :=
  match dictLookup previous loc, dictLookup current loc with
  | some p, some c => if honor then dur_record ex paths p c else eph_record ex p c
  | _, _ => none

/-- The location list `find_modified` iterates over. -/
def mod_locations (previous current : List Item)
    (em : List (List String)) : List (List String) :=
  ((locations_of current).filter
      (fun l => (locations_of previous).contains l)).filter
    (fun l => !(locationInExceptionMap l em))

lemma find_modified_step_eq (ex : List String) (w : Watcher)
    (previous current : List Item) (loc : List String) :
    Watcher.find_modified_step ex w previous current loc =
      { w with
        ephemeral_items := w.ephemeral_items ++
          (loop_eph ex w.honor_ephemerals previous current loc).toList,
        changed_items := w.changed_items ++
          (loop_chg ex w.ephemeral_paths w.honor_ephemerals previous current loc).toList } := by
  obtain ⟨cr, de, ch, ep, rl, he, eps⟩ := w
  unfold Watcher.find_modified_step loop_eph loop_chg Watcher.ephemerals_skipped
  cases dictLookup previous loc <;> cases dictLookup current loc <;>
    cases he <;> simp
  · cases eph_record ex _ _ <;> simp
  · cases eph_record ex _ _ <;> cases dur_record ex eps _ _ <;> simp

lemma find_modified_loop_eq (ex : List String) (previous current : List Item) :
    ∀ (locs : List (List String)) (w : Watcher),
    Watcher.find_modified_loop ex w previous current locs =
      { w with
        ephemeral_items := w.ephemeral_items ++
          locs.filterMap (loop_eph ex w.honor_ephemerals previous current),
        changed_items := w.changed_items ++
          locs.filterMap (loop_chg ex w.ephemeral_paths w.honor_ephemerals previous current) } := by
  intro locs
  induction locs with
  | nil => intro w; simp [Watcher.find_modified_loop]
  | cons loc rest ih =>
      intro w
      rw [Watcher.find_modified_loop, find_modified_step_eq, ih]
      simp only [List.filterMap_cons]
      cases loop_eph ex w.honor_ephemerals previous current loc <;>
        cases loop_chg ex w.ephemeral_paths w.honor_ephemerals previous current loc <;>
          simp

lemma find_modified_eq (ex : List String) (w : Watcher)
    (previous current : List Item) (em : List (List String)) :
    Watcher.find_modified ex w previous current em =
      { w with
        ephemeral_items := w.ephemeral_items ++
          (mod_locations previous current em).filterMap
            (loop_eph ex w.honor_ephemerals previous current),
        changed_items := w.changed_items ++
          (mod_locations previous current em).filterMap
            (loop_chg ex w.ephemeral_paths w.honor_ephemerals previous current) } := by
  unfold Watcher.find_modified mod_locations
  exact find_modified_loop_eq ex previous current _ w

/-! ### Helper lemmas about issue aggregation -/

/-- One record makes `has_issues` true: nonempty `audit_issues`. -/
def rec_has_issues (it : ChangeItem) : Bool := !it.audit_issues.isEmpty

/-- One record makes `has_new_issue` true: nonempty `audit_issues` and
`found_new_issue`. -/
def rec_new (it : ChangeItem) : Bool :=
  !it.audit_issues.isEmpty && it.found_new_issue

/-- One record makes `has_unjustified_issue` true: nonempty `audit_issues`
and either `found_new_issue` or an unjustified confirmed existing issue. -/
def rec_unjust (it : ChangeItem) : Bool :=
  !it.audit_issues.isEmpty &&
    (it.found_new_issue ||
      it.confirmed_existing_issues.any (fun issue => !issue.justified))

lemma issues_found_loop_eq (l : List ChangeItem) :
    ∀ (hi hn hu : Bool),
      issues_found_loop l hi hn hu =
        (hi || l.any rec_has_issues, hn || l.any rec_new, hu || l.any rec_unjust) := by
  induction l with
  | nil => intro hi hn hu; simp [issues_found_loop]
  | cons it rest ih =>
      intro hi hn hu
      by_cases ha : it.audit_issues.isEmpty
      · simp [issues_found_loop, ha, rec_has_issues, rec_new, rec_unjust, ih]
      · by_cases hf : it.found_new_issue
        · simp [issues_found_loop, ha, hf, rec_has_issues, rec_new, rec_unjust]
        · simp [issues_found_loop, ha, hf, rec_has_issues, rec_new, rec_unjust, ih,
            Bool.or_assoc]

lemma issues_found_full_loop_eq (l : List ChangeItem) :
    ∀ (hi hn hu : Bool),
      issues_found_full_loop l hi hn hu =
        (hi || l.any rec_has_issues, hn || l.any rec_new, hu || l.any rec_unjust) := by
  induction l with
  | nil => intro hi hn hu; simp [issues_found_full_loop]
  | cons it rest ih =>
      intro hi hn hu
      by_cases ha : it.audit_issues.isEmpty
      · simp [issues_found_full_loop, ha, rec_has_issues, rec_new, rec_unjust, ih]
      · simp [issues_found_full_loop, ha, rec_has_issues, rec_new, rec_unjust, ih,
          Bool.or_assoc]

/-! ### Helper lemmas about the backoff wrapper -/

lemma increase_delay_backoff : ∀ (k : Nat),
    increase_delay (backoff_seq k) = backoff_seq (k + 1)
  | 0 => by decide
  | 1 => by decide
  | 2 => by decide
  | (_ + 3) => by show increase_delay 4 = 4; decide

lemma wrap_throttle_waits :
    ∀ (n k : Nat),
      (wrap_aws_rate_limited_call (backoff_seq k)
          (List.replicate n AwsOutcome.throttling)).1 =
        (List.range n).map (fun i => backoff_seq (k + i)) := by
  intro n
  induction n with
  | zero => intro k; simp [wrap_aws_rate_limited_call]
  | succ m ih =>
      intro k
      rw [List.replicate_succ]
      show backoff_seq k ::
          (wrap_aws_rate_limited_call (increase_delay (backoff_seq k))
            (List.replicate m AwsOutcome.throttling)).1 = _
      rw [increase_delay_backoff k, ih (k + 1), List.range_succ_eq_map,
        List.map_cons, List.map_map]
      refine congrArg (backoff_seq (k + 0) :: ·) (List.map_congr_left ?_)
      intro i _
      show backoff_seq (k + 1 + i) = backoff_seq (k + Nat.succ i)
      exact congrArg backoff_seq (by omega)

/-! ### Claim theorems -/

/-- C3: starting from a fresh invoker (`rate_limit_delay = 0`), the waits
applied before successive attempts under consecutive Throttling failures
are exactly `0, 1, 2, 4, 4, 4, ...` (a wait of `0` meaning no sleep on the
first attempt), and a single successful attempt resets the internal delay
to `0`. -/
theorem spec_c3_backoff_delays :
    (∀ n : Nat,
      (wrap_aws_rate_limited_call 0 (List.replicate n AwsOutcome.throttling)).1 =
        (List.range n).map backoff_seq) ∧
    (∀ (d : Nat) (rest : List AwsOutcome),
      (wrap_aws_rate_limited_call d (AwsOutcome.success :: rest)).2.2 = 0) := by
  constructor
  · intro n
    have h := wrap_throttle_waits n 0
    simpa using h
  · intro d rest
    rfl

/-- C9: `ChangeItem.from_items` on two absent items yields no record and
raises nothing (a plain `None` return); with at least one item present it
yields a record whose `active` is true iff the new item exists and whose
`config` property is an alias for `new_config`. -/
theorem spec_c9_from_items :
    ChangeItem.from_items none none = none ∧
    ∀ (old_item new_item : Option Item),
      (old_item.isSome = true ∨ new_item.isSome = true) →
      ∃ ch, ChangeItem.from_items old_item new_item = some ch ∧
        (ch.active = true ↔ new_item.isSome = true) ∧
        ch.config = ch.new_config := by
  refine ⟨rfl, ?_⟩
  intro old_item new_item h
  match old_item, new_item with
  | none, none => simp at h
  | o, some n =>
      obtain ⟨ch, heq, _, hact⟩ := from_items_new_some o n
      exact ⟨ch, heq, by simp [hact], rfl⟩
  | some o, none =>
      obtain ⟨ch, heq, _, hact⟩ := from_items_old_some o
      exact ⟨ch, heq, by simp [hact], rfl⟩

/-- Witness for C9 at a concrete item. -/
theorem spec_c9_from_items_witness :
    ∃ ch, ChangeItem.from_items
        (some { index := "sg", account := "a1", region := "us-east-1", name := "sg-1",
                config := Config.leaf "x", audit_issues := [] }) none = some ch ∧
      (ch.active = true ↔ (none : Option Item).isSome = true) ∧
      ch.config = ch.new_config :=
  spec_c9_from_items.2
    (some { index := "sg", account := "a1", region := "us-east-1", name := "sg-1",
            config := Config.leaf "x", audit_issues := [] }) none (Or.inl rfl)

/-- C10: `is_changed` is truthy iff one of the deleted, created or changed
buckets is nonempty; in particular a cycle whose only findings sit in the
ephemeral bucket reports no change. -/
theorem spec_c10_is_changed (w : Watcher) :
    (Watcher.is_changed w ≠ [] ↔
      (w.deleted_items ≠ [] ∨ w.created_items ≠ [] ∨ w.changed_items ≠ [])) ∧
    (w.deleted_items = [] → w.created_items = [] → w.changed_items = [] →
      Watcher.is_changed w = []) := by
  unfold Watcher.is_changed pyOr
  constructor
  · by_cases h1 : w.deleted_items.isEmpty <;>
      by_cases h2 : w.created_items.isEmpty <;>
        simp_all [List.isEmpty_iff]
  · intro h1 h2 h3
    simp [h1, h2, h3]

/-- Witness for C10: ephemeral-only findings are not reported as change. -/
theorem spec_c10_is_changed_witness :
    Watcher.is_changed
      { Watcher.init with
        honor_ephemerals := true
        ephemeral_items := [{
          index := "sg", region := "us-east-1", account := "a1", name := "sg-1",
          old_config := Config.leaf "x", new_config := Config.leaf "y", active := true,
          audit_issues := [], confirmed_new_issues := [], confirmed_fixed_issues := [],
          confirmed_existing_issues := [], found_new_issue := false }] } = [] :=
  (spec_c10_is_changed _).2 rfl rfl rfl

/-- A record with `found_new_issue` but an empty `audit_issues` list. -/
def c7_item : ChangeItem :=
  { index := "sg", region := "us-east-1", account := "a1", name := "sg-1",
    old_config := Config.nil, new_config := Config.nil, active := true,
    audit_issues := [], confirmed_new_issues := [], confirmed_fixed_issues := [],
    confirmed_existing_issues := [], found_new_issue := true }

/-- A watcher state whose only scanned record is `c7_item`. -/
def c7_state : Watcher := { Watcher.init with created_items := [c7_item] }

/-- C7 counterexample: the claim says a record with `foundNewIssue` set
sets both `hasNewIssue` and `hasUnjustifiedIssue`, but the source only
inspects `found_new_issue` inside `if item.audit_issues:`; a record with
`found_new_issue` and empty `audit_issues` sets neither flag. -/
theorem spec_c7_counterexample :
    (∃ it ∈ c7_state.created_items ++ c7_state.changed_items,
      it.found_new_issue = true) ∧
    (Watcher.issues_found c7_state).2.1 = false ∧
    (Watcher.issues_found c7_state).2.2 = false := by
  decide

/-- C7 amended: `issues_found` scans `created_items ++ changed_items`;
records with empty `auditIssues` are skipped entirely, a scanned record
with nonempty `auditIssues` sets `hasIssues`, such a record additionally
sets `hasNewIssue` and `hasUnjustifiedIssue` and stops the scan when
`foundNewIssue` is set, and otherwise sets `hasUnjustifiedIssue` when some
`confirmedExistingIssues` entry has `justified = false`; the resulting
flags are exactly the three per-record disjunctions below. -/
theorem spec_c7_issues_found (w : Watcher) :
    Watcher.issues_found w =
      ((w.created_items ++ w.changed_items).any rec_has_issues,
       (w.created_items ++ w.changed_items).any rec_new,
       (w.created_items ++ w.changed_items).any rec_unjust) := by
  unfold Watcher.issues_found
  rw [issues_found_loop_eq]
  simp

/-- C8: the short-circuiting `issues_found` returns exactly the flags of
the full scan with no early termination. -/
theorem spec_c8_short_circuit (w : Watcher) :
    Watcher.issues_found w = Watcher.issues_found_full w := by
  unfold Watcher.issues_found Watcher.issues_found_full
  rw [issues_found_loop_eq, issues_found_full_loop_eq]

/-- A durable change record, sitting in the changed bucket only. -/
def c2_rec : ChangeItem :=
  { index := "sg", region := "us-east-1", account := "a1", name := "sg-1",
    old_config := Config.leaf "a", new_config := Config.leaf "b", active := true,
    audit_issues := [], confirmed_new_issues := [], confirmed_fixed_issues := [],
    confirmed_existing_issues := [], found_new_issue := false }

/-- A watcher honoring ephemerals whose changed bucket holds `c2_rec`. -/
def c2_state : Watcher :=
  { Watcher.init with
    honor_ephemerals := true
    changed_items := [c2_rec] }

/-- C2 counterexample: with `honor_ephemerals` set, `save` stores the
ephemeral bucket INSTEAD of the changed bucket, so a record in the changed
bucket is not persisted — contradicting "every record in the changed
bucket ... regardless of whether honorEphemerals is set". -/
theorem spec_c2_counterexample :
    c2_rec ∈ c2_state.changed_items ∧ c2_rec ∉ Watcher.save c2_state := by
  decide

/-- C2 amended: `save` always persists the created and deleted buckets;
with `honor_ephemerals = false` it persists the changed bucket, and with
`honor_ephemerals = true` it persists the ephemeral bucket in place of the
changed bucket. -/
theorem spec_c2_save (w : Watcher) (ch : ChangeItem)
    (h : ch ∈ w.created_items ∨ ch ∈ w.deleted_items ∨
      (w.honor_ephemerals = false ∧ ch ∈ w.changed_items) ∨
      (w.honor_ephemerals = true ∧ ch ∈ w.ephemeral_items)) :
    ch ∈ Watcher.save w := by
  rcases h with h | h | ⟨hh, h⟩ | ⟨hh, h⟩
  · simp [Watcher.save, h]
  · simp [Watcher.save, h]
  · simp [Watcher.save, Watcher.ephemerals_skipped, hh, h]
  · simp [Watcher.save, Watcher.ephemerals_skipped, hh, h]

/-- Witness for C2 (amended): a created record is stored. -/
theorem spec_c2_save_witness :
    c2_rec ∈ Watcher.save { Watcher.init with created_items := [c2_rec] } :=
  spec_c2_save { Watcher.init with created_items := [c2_rec] } c2_rec
    (Or.inl (by decide))

/-! ### Helper lemmas for the disjoint-snapshot and suppression claims -/

lemma locationInExceptionMap_nil (l : List String) :
    locationInExceptionMap l [] = false := rfl

lemma mem_locations_of {items : List Item} {l : List String} :
    l ∈ locations_of items ↔ ∃ it ∈ items, it.location = l := by
  unfold locations_of
  rw [mem_dictKeys]
  exact List.mem_map

lemma contains_locations_of_eq_false {items : List Item} {l : List String}
    (h : ∀ it ∈ items, it.location ≠ l) :
    (locations_of items).contains l = false := by
  cases hcon : (locations_of items).contains l with
  | false => rfl
  | true =>
      obtain ⟨it, hit, he⟩ := mem_locations_of.mp (List.elem_iff.mp hcon)
      exact absurd he (h it hit)

lemma deleted_changes_of_disjoint (previous current : List Item)
    (h1 : (previous.map Item.location).Nodup)
    (h3 : ∀ p ∈ previous, ∀ c ∈ current, p.location ≠ c.location) :
    deleted_changes previous current [] =
      previous.filterMap (fun it => ChangeItem.from_items (some it) none) := by
  unfold deleted_changes
  have ha : locations_of previous = previous.map Item.location := dictKeys_eq_self h1
  rw [ha]
  have hfil1 : (previous.map Item.location).filter
      (fun l => !((locations_of current).contains l)) = previous.map Item.location := by
    apply List.filter_eq_self.mpr
    intro l hl
    obtain ⟨p, hpmem, rfl⟩ := List.mem_map.mp hl
    have hcf : (locations_of current).contains p.location = false :=
      contains_locations_of_eq_false (fun c hcm he => (h3 p hpmem c hcm) he.symm)
    show (!((locations_of current).contains p.location)) = true
    rw [hcf]
    rfl
  rw [hfil1]
  have hfil2 : (previous.map Item.location).filter
      (fun l => !(locationInExceptionMap l [])) = previous.map Item.location := by
    apply List.filter_eq_self.mpr
    intro l _
    show (!(locationInExceptionMap l [])) = true
    rw [locationInExceptionMap_nil]
    rfl
  rw [hfil2]
  rw [List.filterMap_map]
  have hlook : List.filterMap ((fun l => dictLookup previous l) ∘ Item.location)
      previous = previous := by
    apply filterMap_eq_self
    intro p hpmem
    exact dictLookup_self h1 hpmem
  rw [hlook]

lemma created_changes_of_disjoint (previous current : List Item)
    (h2 : (current.map Item.location).Nodup)
    (h3 : ∀ p ∈ previous, ∀ c ∈ current, p.location ≠ c.location) :
    created_changes previous current =
      current.filterMap (fun it => ChangeItem.from_items none (some it)) := by
  unfold created_changes
  have ha : locations_of current = current.map Item.location := dictKeys_eq_self h2
  rw [ha]
  have hfil1 : (current.map Item.location).filter
      (fun l => !((locations_of previous).contains l)) = current.map Item.location := by
    apply List.filter_eq_self.mpr
    intro l hl
    obtain ⟨c, hcmem, rfl⟩ := List.mem_map.mp hl
    have hcf : (locations_of previous).contains c.location = false :=
      contains_locations_of_eq_false (fun p hpmem he => (h3 p hpmem c hcmem) he)
    show (!((locations_of previous).contains c.location)) = true
    rw [hcf]
    rfl
  rw [hfil1]
  rw [List.filterMap_map]
  have hlook : List.filterMap ((fun l => dictLookup current l) ∘ Item.location)
      current = current := by
    apply filterMap_eq_self
    intro c hcmem
    exact dictLookup_self h2 hcmem
  rw [hlook]

lemma mod_locations_of_disjoint (previous current : List Item)
    (h3 : ∀ p ∈ previous, ∀ c ∈ current, p.location ≠ c.location) :
    mod_locations previous current [] = [] := by
  unfold mod_locations
  have hfil : (locations_of current).filter
      (fun l => (locations_of previous).contains l) = [] := by
    rw [List.filter_eq_nil_iff]
    intro l hl
    obtain ⟨c, hcmem, rfl⟩ := mem_locations_of.mp hl
    have hcf : (locations_of previous).contains c.location = false :=
      contains_locations_of_eq_false (fun p hpmem he => (h3 p hpmem c hcmem) he)
    show ¬ ((locations_of previous).contains c.location = true)
    rw [hcf]
    simp
  rw [hfil]
  rfl

/-- C1: on snapshots with disjoint location sets (each snapshot
location-duplicate-free, as the engine assumes) and an empty exception
map, the full diff from a fresh watcher creates exactly one ChangeItem per
item of `current`, deletes exactly one per item of `previous`, and leaves
the changed (and ephemeral) bucket empty — for either setting of
`honor_ephemerals` and any ephemeral paths. -/
theorem spec_c1_disjoint_diff (ex : List String) (honor : Bool)
    (paths : List (List String))
    (previous current : List Item)
    (h1 : (previous.map Item.location).Nodup)
    (h2 : (current.map Item.location).Nodup)
    (h3 : ∀ p ∈ previous, ∀ c ∈ current, p.location ≠ c.location) :
    (Watcher.find_changes ex
        { Watcher.init with honor_ephemerals := honor, ephemeral_paths := paths }
        previous current []).created_items =
      current.filterMap (fun it => ChangeItem.from_items none (some it)) ∧
    (Watcher.find_changes ex
        { Watcher.init with honor_ephemerals := honor, ephemeral_paths := paths }
        previous current []).deleted_items =
      previous.filterMap (fun it => ChangeItem.from_items (some it) none) ∧
    (Watcher.find_changes ex
        { Watcher.init with honor_ephemerals := honor, ephemeral_paths := paths }
        previous current []).changed_items = [] ∧
    (Watcher.find_changes ex
        { Watcher.init with honor_ephemerals := honor, ephemeral_paths := paths }
        previous current []).ephemeral_items = [] := by
  unfold Watcher.find_changes
  rw [find_modified_eq, find_new_eq, find_deleted_eq]
  rw [deleted_changes_of_disjoint previous current h1 h3,
    created_changes_of_disjoint previous current h2 h3,
    mod_locations_of_disjoint previous current h3]
  simp [Watcher.init]

/-- A concrete previous item for the C1 witness. -/
def c1_prev_item : Item :=
  { index := "sg", account := "a1", region := "us-east-1", name := "sg-old",
    config := Config.leaf "x", audit_issues := [] }

/-- A concrete current item for the C1 witness. -/
def c1_curr_item : Item :=
  { index := "sg", account := "a1", region := "us-east-1", name := "sg-new",
    config := Config.leaf "y", audit_issues := [] }

/-- Witness for C1 at one-element disjoint snapshots. -/
theorem spec_c1_disjoint_diff_witness :
    (Watcher.find_changes []
        { Watcher.init with honor_ephemerals := false, ephemeral_paths := [] }
        [c1_prev_item] [c1_curr_item] []).created_items =
      [c1_curr_item].filterMap (fun it => ChangeItem.from_items none (some it)) ∧
    (Watcher.find_changes []
        { Watcher.init with honor_ephemerals := false, ephemeral_paths := [] }
        [c1_prev_item] [c1_curr_item] []).deleted_items =
      [c1_prev_item].filterMap (fun it => ChangeItem.from_items (some it) none) ∧
    (Watcher.find_changes []
        { Watcher.init with honor_ephemerals := false, ephemeral_paths := [] }
        [c1_prev_item] [c1_curr_item] []).changed_items = [] ∧
    (Watcher.find_changes []
        { Watcher.init with honor_ephemerals := false, ephemeral_paths := [] }
        [c1_prev_item] [c1_curr_item] []).ephemeral_items = [] :=
  spec_c1_disjoint_diff [] false [] [c1_prev_item] [c1_curr_item]
    (by decide) (by decide) (by decide)

/-- C4: with an empty starting deleted bucket, a previous-only location
with an exception-map entry at the full location or any ancestor partial
location never reaches the deleted bucket, while a current-only location
always reaches the created bucket (find_new consults no exception map). -/
theorem spec_c4_suppression (w : Watcher) (previous current : List Item)
    (exception_map : List (List String))
    (hdel : w.deleted_items = []) :
    (∀ p ∈ previous, (∀ c ∈ current, c.location ≠ p.location) →
      (exception_map.contains p.location = true ∨
       exception_map.contains (p.location.take 3) = true ∨
       exception_map.contains (p.location.take 2) = true ∨
       exception_map.contains (p.location.take 1) = true) →
      ∀ ch ∈ (Watcher.find_deleted w previous current exception_map).deleted_items,
        ch.location ≠ p.location) ∧
    (∀ c ∈ current, (∀ q ∈ previous, q.location ≠ c.location) →
      ∃ ch ∈ (Watcher.find_new w previous current).created_items,
        ch.location = c.location) := by
  constructor
  · intro p hp _ hsup ch hch hloc
    rw [find_deleted_eq] at hch
    rw [hdel] at hch
    rw [List.nil_append] at hch
    unfold deleted_changes at hch
    obtain ⟨it, hit, hfrom⟩ := List.mem_filterMap.mp hch
    obtain ⟨l, hl, hlook⟩ := List.mem_filterMap.mp hit
    have hnosup : locationInExceptionMap l exception_map = false := by
      have := (List.mem_filter.mp hl).2
      simpa using this
    have hitloc : it.location = l := (dictLookup_mem_location hlook).2
    have hchloc : ch.location = it.location := from_items_old_location hfrom
    have hpl : p.location = l := by rw [← hloc, hchloc, hitloc]
    have hsup2 : locationInExceptionMap p.location exception_map = true := by
      unfold locationInExceptionMap
      rcases hsup with h | h | h | h <;> simp [List.elem_iff.mp h]
    rw [hpl, hnosup] at hsup2
    exact Bool.false_ne_true hsup2
  · intro c hc hnoprev
    rw [find_new_eq]
    unfold created_changes
    have hmemloc : c.location ∈ (locations_of current).filter
        (fun l => !((locations_of previous).contains l)) := by
      apply List.mem_filter.mpr
      constructor
      · exact mem_locations_of.mpr ⟨c, hc, rfl⟩
      · have hcf : (locations_of previous).contains c.location = false :=
          contains_locations_of_eq_false (fun q hq => hnoprev q hq)
        show (!((locations_of previous).contains c.location)) = true
        rw [hcf]
        rfl
    obtain ⟨it, hitlook⟩ :=
      dictLookup_isSome (List.mem_map.mpr ⟨c, hc, rfl⟩)
    obtain ⟨hitmem, hitloc⟩ := dictLookup_mem_location hitlook
    obtain ⟨ch, hfrom, hchloc, _⟩ := from_items_new_some none it
    refine ⟨ch, ?_, ?_⟩
    · apply List.mem_append.mpr
      right
      apply List.mem_filterMap.mpr
      refine ⟨it, ?_, hfrom⟩
      apply List.mem_filterMap.mpr
      exact ⟨c.location, hmemloc, hitlook⟩
    · rw [hchloc, hitloc]

/-- A previous-only item whose technology has an exception entry. -/
def c4_prev_item : Item :=
  { index := "sg", account := "a1", region := "us-east-1", name := "sg-gone",
    config := Config.leaf "x", audit_issues := [] }

/-- A current-only item under the same technology-level exception. -/
def c4_curr_item : Item :=
  { index := "sg", account := "a1", region := "us-east-1", name := "sg-born",
    config := Config.leaf "y", audit_issues := [] }

/-- Witness for C4 with a technology-level (1-element) exception entry. -/
theorem spec_c4_suppression_witness :
    (∀ ch ∈ (Watcher.find_deleted Watcher.init [c4_prev_item] [c4_curr_item]
        [["sg"]]).deleted_items, ch.location ≠ c4_prev_item.location) ∧
    (∃ ch ∈ (Watcher.find_new Watcher.init [c4_prev_item]
        [c4_curr_item]).created_items, ch.location = c4_curr_item.location) :=
  ⟨(spec_c4_suppression Watcher.init [c4_prev_item] [c4_curr_item] [["sg"]] rfl).1
      c4_prev_item (by decide) (by decide) (by decide),
   (spec_c4_suppression Watcher.init [c4_prev_item] [c4_curr_item] [["sg"]] rfl).2
      c4_curr_item (by decide) (by decide)⟩


/-! ### Helper lemmas for the ephemeral-filtering claim -/

lemma eph_record_location {ex : List String} {p c : Item} {ch : ChangeItem}
    (h : eph_record ex p c = some ch) : ch.location = c.location := by
  unfold eph_record at h
  by_cases hc : sub_dict ex p.config = sub_dict ex c.config
  · rw [if_pos hc] at h
    exact absurd h (by simp)
  · rw [if_neg hc] at h
    exact from_items_location rfl h

lemma dur_record_location {ex : List String} {paths : List (List String)}
    {p c : Item} {ch : ChangeItem}
    (h : dur_record ex paths p c = some ch) : ch.location = c.location := by
  unfold dur_record at h
  by_cases hc : sub_dict ex (filter_ephemerals paths p.config) =
      sub_dict ex (filter_ephemerals paths c.config)
  · rw [if_pos hc] at h
    exact absurd h (by simp)
  · rw [if_neg hc] at h
    exact @from_items_location
      (some { p with config := filter_ephemerals paths p.config })
      (some { c with config := filter_ephemerals paths c.config })
      { c with config := filter_ephemerals paths c.config } ch rfl h

lemma loop_chg_some {ex : List String} {paths : List (List String)} {honor : Bool}
    {previous current : List Item} {l : List String} {p c : Item}
    (hp : dictLookup previous l = some p) (hc : dictLookup current l = some c) :
    loop_chg ex paths honor previous current l =
      if honor then dur_record ex paths p c else eph_record ex p c := by
  unfold loop_chg
  rw [hp, hc]

lemma loop_eph_some {ex : List String} {honor : Bool}
    {previous current : List Item} {l : List String} {p c : Item}
    (hp : dictLookup previous l = some p) (hc : dictLookup current l = some c) :
    loop_eph ex honor previous current l =
      if honor then eph_record ex p c else none := by
  unfold loop_eph
  cases honor with
  | true => rw [if_pos rfl, if_pos rfl, hp, hc]
  | false => rw [if_neg (by simp), if_neg (by simp)]

lemma loop_chg_location {ex : List String} {paths : List (List String)} {honor : Bool}
    {previous current : List Item} {l : List String} {ch : ChangeItem}
    (h : loop_chg ex paths honor previous current l = some ch) :
    ch.location = l := by
  cases hp : dictLookup previous l with
  | none => unfold loop_chg at h; rw [hp] at h; simp at h
  | some p =>
      cases hc : dictLookup current l with
      | none => unfold loop_chg at h; rw [hp, hc] at h; simp at h
      | some c =>
          rw [loop_chg_some hp hc] at h
          have hcl : c.location = l := (dictLookup_mem_location hc).2
          cases honor with
          | true =>
              rw [if_pos rfl] at h
              rw [dur_record_location h, hcl]
          | false =>
              rw [if_neg (by simp)] at h
              rw [eph_record_location h, hcl]

/-- C5: for a location present in both snapshots whose configs differ, but
agree once the ephemeral paths are deleted from both copies: with
`honor_ephemerals = true` the record lands in the ephemeral bucket and the
changed bucket holds no record for that location, while with
`honor_ephemerals = false` the record lands in the changed bucket. -/
theorem spec_c5_ephemeral_filtering (ex : List String) (paths : List (List String))
    (previous current : List Item) (loc : List String) (p c : Item)
    (hp : dictLookup previous loc = some p)
    (hc : dictLookup current loc = some c)
    (hdelta : ¬ sub_dict ex p.config = sub_dict ex c.config)
    (heph : sub_dict ex (filter_ephemerals paths p.config) =
      sub_dict ex (filter_ephemerals paths c.config)) :
    ((∃ ch ∈ (Watcher.find_modified ex
        { Watcher.init with honor_ephemerals := true, ephemeral_paths := paths }
        previous current []).ephemeral_items, ch.location = loc) ∧
     (∀ ch ∈ (Watcher.find_modified ex
        { Watcher.init with honor_ephemerals := true, ephemeral_paths := paths }
        previous current []).changed_items, ch.location ≠ loc)) ∧
    (∃ ch ∈ (Watcher.find_modified ex
        { Watcher.init with honor_ephemerals := false, ephemeral_paths := paths }
        previous current []).changed_items, ch.location = loc) := by
  have hmem : loc ∈ mod_locations previous current [] := by
    unfold mod_locations
    apply List.mem_filter.mpr
    refine ⟨List.mem_filter.mpr ⟨?_, ?_⟩, ?_⟩
    · obtain ⟨hcm, hcl⟩ := dictLookup_mem_location hc
      exact mem_locations_of.mpr ⟨c, hcm, hcl⟩
    · obtain ⟨hpm, hpl⟩ := dictLookup_mem_location hp
      exact List.elem_iff.mpr (mem_locations_of.mpr ⟨p, hpm, hpl⟩)
    · show (!(locationInExceptionMap loc [])) = true
      rw [locationInExceptionMap_nil]
      rfl
  have hcloc : c.location = loc := (dictLookup_mem_location hc).2
  obtain ⟨che, hche, hcheloc, _⟩ := from_items_new_some (some p) c
  have heprec : eph_record ex p c = some che := by
    unfold eph_record
    rw [if_neg hdelta, hche]
  refine ⟨⟨?_, ?_⟩, ?_⟩
  · rw [find_modified_eq]
    refine ⟨che, ?_, by rw [hcheloc, hcloc]⟩
    show che ∈ ([] : List ChangeItem) ++
      (mod_locations previous current []).filterMap (loop_eph ex true previous current)
    rw [List.nil_append]
    apply List.mem_filterMap.mpr
    refine ⟨loc, hmem, ?_⟩
    rw [loop_eph_some hp hc, if_pos rfl]
    exact heprec
  · intro ch hch hloc
    rw [find_modified_eq] at hch
    have hch2 : ch ∈ (mod_locations previous current []).filterMap
        (loop_chg ex paths true previous current) := by
      simpa [Watcher.init] using hch
    obtain ⟨l, hlmem, hl⟩ := List.mem_filterMap.mp hch2
    have hchl : ch.location = l := loop_chg_location hl
    have hleq : l = loc := by rw [← hchl, hloc]
    rw [hleq] at hl
    rw [loop_chg_some hp hc, if_pos rfl] at hl
    unfold dur_record at hl
    rw [if_pos heph] at hl
    exact absurd hl (by simp)
  · rw [find_modified_eq]
    refine ⟨che, ?_, by rw [hcheloc, hcloc]⟩
    show che ∈ ([] : List ChangeItem) ++
      (mod_locations previous current []).filterMap (loop_chg ex paths false previous current)
    rw [List.nil_append]
    apply List.mem_filterMap.mpr
    refine ⟨loc, hmem, ?_⟩
    rw [loop_chg_some hp hc, if_neg (by simp)]
    exact heprec

/-- Previous item for the C5 witness: nested `rules.ts = 1`. -/
def c5_prev_item : Item :=
  { index := "sg", account := "a1", region := "us-east-1", name := "sg-1",
    config := Config.cons "rules" (Config.cons "ts" (Config.leaf "1") Config.nil)
      Config.nil,
    audit_issues := [] }

/-- Current item for the C5 witness: same location, `rules.ts = 2`. -/
def c5_curr_item : Item :=
  { index := "sg", account := "a1", region := "us-east-1", name := "sg-1",
    config := Config.cons "rules" (Config.cons "ts" (Config.leaf "2") Config.nil)
      Config.nil,
    audit_issues := [] }

/-- Witness for C5: the only delta is at the ephemeral path `rules.ts`. -/
theorem spec_c5_ephemeral_filtering_witness :
    ((∃ ch ∈ (Watcher.find_modified []
        { Watcher.init with honor_ephemerals := true, ephemeral_paths := [["rules", "ts"]] }
        [c5_prev_item] [c5_curr_item] []).ephemeral_items,
        ch.location = c5_prev_item.location) ∧
     (∀ ch ∈ (Watcher.find_modified []
        { Watcher.init with honor_ephemerals := true, ephemeral_paths := [["rules", "ts"]] }
        [c5_prev_item] [c5_curr_item] []).changed_items,
        ch.location ≠ c5_prev_item.location)) ∧
    (∃ ch ∈ (Watcher.find_modified []
        { Watcher.init with honor_ephemerals := false, ephemeral_paths := [["rules", "ts"]] }
        [c5_prev_item] [c5_curr_item] []).changed_items,
        ch.location = c5_prev_item.location) :=
  spec_c5_ephemeral_filtering [] [["rules", "ts"]] [c5_prev_item] [c5_curr_item]
    c5_prev_item.location c5_prev_item c5_curr_item
    (by decide) (by decide) (by decide) (by decide)

/-- The bucket reset `Watcher.__init__` performs: all four buckets empty. -/
def Watcher.reset_items (w : Watcher) : Watcher :=
  { w with
    created_items := []
    deleted_items := []
    changed_items := []
    ephemeral_items := [] }

/-- Item appearing only in `current` for the C6 counterexample. -/
def c6_curr_item : Item :=
  { index := "sg", account := "a1", region := "us-east-1", name := "sg-1",
    config := Config.leaf "x", audit_issues := [] }

/-- One run of `find_changes` on a fresh watcher. -/
def c6_once : Watcher :=
  Watcher.find_changes [] Watcher.init [] [c6_curr_item] []

/-- A second run of `find_changes` on the same watcher instance. -/
def c6_twice : Watcher :=
  Watcher.find_changes [] c6_once [] [c6_curr_item] []

/-- C6 counterexample: the find passes append to the instance buckets, so
running the reconciler twice on the same pair duplicates every record
instead of reproducing the one-run buckets. -/
theorem spec_c6_counterexample :
    ¬ (c6_twice.created_items = c6_once.created_items ∧
       c6_twice.deleted_items = c6_once.deleted_items ∧
       c6_twice.changed_items = c6_once.changed_items ∧
       c6_twice.ephemeral_items = c6_once.ephemeral_items) := by
  decide

/-- C6 amended: with the buckets cleared between runs (exactly what
`Watcher.__init__` does for a fresh watcher), running `find_changes` twice
on the same `(previous, current)` pair yields the same bucket contents as
running it once — the reconciler itself is deterministic and leaves the
engine configuration untouched. -/
theorem spec_c6_idempotent_after_reset (ex : List String) (w : Watcher)
    (prev current : List Item) (em : List (List String)) :
    Watcher.find_changes ex
        (Watcher.reset_items (Watcher.find_changes ex w prev current em))
        prev current em =
      Watcher.find_changes ex (Watcher.reset_items w) prev current em := by
  have hkey : Watcher.reset_items (Watcher.find_changes ex w prev current em) =
      Watcher.reset_items w := by
    obtain ⟨cr, de, ch, ep, rl, he, eps⟩ := w
    unfold Watcher.find_changes
    rw [find_modified_eq, find_new_eq, find_deleted_eq]
    rfl
  rw [hkey]
